import Mathlib

/-!
Shallow embedding of the interaction-discovery core of SMASH
(`src/scatteractionsfinder.cc`) and proofs about it.

Doubles are modelled as exact rationals (`ℚ`); machine integers as `ℕ`.
Quantities computed by collaborators outside the covered sources
(`collision_time`, `ScatterAction::transverse_distance_sqr`,
`cross_section`, `relative_velocity`, `probability_multi`,
`max_transverse_distance_sqr`, the pseudo-random draws) are threaded in as
explicit environment fields, so the evaluators become pure functions of
their inputs, exactly mirroring the branch structure of the source.
Throwing `std::runtime_error` is modelled with `Except String`; returning
`nullptr` with `Option`.
-/

namespace Smash

/-- Numerical noise threshold, `really_small = 1.0e-6` from SMASH `constants.h`. -/
def really_small : ℚ := 1 / 1000000

/-- mb to fm² conversion factor, `fm2_mb = 0.1` from SMASH `constants.h`. -/
def fm2_mb : ℚ := 1 / 10

/-- The libm constant `M_1_PI` (the double closest to 1/π), as an exact rational. -/
def m_1_pi : ℚ := 0.3183098861837907

/-- `CollisionCriterion` enum: the three mutually exclusive decision models. -/
inductive CollisionCriterion where
  | Geometric
  | Stochastic
  | Covariant
deriving DecidableEq

/-- The fields of `ParticleData` read by `check_collision_two_part`:
the unique ordinal id (asserted non-negative in the source, hence `ℕ`)
and the id of the last process the particle took part in (`uint32_t`). -/
structure ParticleData where
  id : ℕ
  id_process : ℕ
deriving DecidableEq

/-- The fields of `ScatterActionsFinder` that the collision checks read.
`nucleon_has_interacted` models the borrowed `std::vector<bool>&`
interaction-history flag vector, read only at indices `< N_tot`. -/
structure Finder where
  coll_crit : CollisionCriterion
  testparticles : ℕ
  N_tot : ℕ
  N_proj : ℕ
  nucleon_has_interacted : ℕ → Bool

/-- An accepted interaction descriptor; the collision checks fix its
time-until-collision at construction, which is all the proofs need. -/
structure Act where
  time : ℚ
deriving DecidableEq

/-- Externally computed kinematic quantities consumed by
`check_collision_two_part`, one field per collaborator call:
`collision_time(...)`, `act->transverse_distance_sqr()`,
`act->cov_transverse_distance_sqr()`, `act->cross_section()` (after
`add_all_scatterings`), `act->relative_velocity()`,
`data_{a,b}.xsec_scaling_factor(time_until_collision)`,
`max_transverse_distance_sqr(testparticles_)` and the
`random::uniform(0., 1.)` draw. -/
structure TwoPartEnv where
  time_until_collision : ℚ
  transverse_distance_sqr : ℚ
  cov_transverse_distance_sqr : ℚ
  cross_section : ℚ
  v_rel : ℚ
  xsec_scale_a : ℚ
  xsec_scale_b : ℚ
  max_transverse_distance_sqr : ℚ
  random_draw : ℚ

/-- Externally computed quantities consumed by `check_collision_multi_part`:
the `random::uniform(0., 1.)` draw for the interaction time, whether
`act->process_type() == ProcessType::None` after `add_final_state()`,
`act->probability_multi(dt, cell_vol)` and the acceptance draw. -/
structure MultiEnv where
  random_time : ℚ
  process_type_none : Bool
  p_nm : ℚ
  random_draw : ℚ

/-- The spectator-exclusion condition of `check_collision_two_part`
(both ids below `N_tot_`, both on the same beam side, and neither
interaction-history flag set). -/
def spectator_banned (f : Finder) (a b : ParticleData) : Prop :=
  a.id < f.N_tot ∧ b.id < f.N_tot ∧
    ((a.id < f.N_proj ∧ b.id < f.N_proj) ∨ (f.N_proj ≤ a.id ∧ f.N_proj ≤ b.id)) ∧
    ¬(f.nucleon_has_interacted a.id = true ∨ f.nucleon_has_interacted b.id = true)

instance (f : Finder) (a b : ParticleData) : Decidable (spectator_banned f a b) := by
  unfold spectator_banned
  infer_instance

/-- The distance-squared quantity used by the criterion branches:
`transverse_distance_sqr` for geometric, `cov_transverse_distance_sqr`
for covariant, `0.0` otherwise. -/
def criterion_distance_sqr (f : Finder) (env : TwoPartEnv) : ℚ :=
  match f.coll_crit with
  | .Geometric => env.transverse_distance_sqr
  | .Covariant => env.cov_transverse_distance_sqr
  | .Stochastic => 0

/-- The scaled total cross section:
`act->cross_section() * fm2_mb / testparticles_`, multiplied by both
particles' cross-section scaling factors. -/
def scaled_xs (f : Finder) (env : TwoPartEnv) : ℚ :=
  env.cross_section * fm2_mb / (f.testparticles : ℚ) * env.xsec_scale_a * env.xsec_scale_b

/-- The two-body stochastic collision probability
`prob = xs * v_rel * dt / cell_vol`. -/
def two_part_prob (f : Finder) (env : TwoPartEnv) (dt cell_vol : ℚ) : ℚ :=
  scaled_xs f env * env.v_rel * dt / cell_vol

/-- Message of the `std::runtime_error` thrown on two-body probability overflow. -/
def two_part_prob_err (prob : ℚ) : String :=
  "Probability larger than 1 for stochastic rates. ( P = " ++ toString prob ++
    " )\nUse smaller timesteps."

/-- Message of the `std::runtime_error` thrown on multi-body probability overflow. -/
def multi_prob_err (p_nm : ℚ) : String :=
  "Probability larger than 1 for stochastic rates. ( P_nm = " ++ toString p_nm ++
    " )\nUse smaller timesteps."

/-- Message of the `std::runtime_error` thrown for test-particle numbers other than 1. -/
def multi_testp_err : String :=
  "Multi-body reactions do not scale with testparticles yet. Use 1."

/-- `ScatterActionsFinder::check_collision_two_part`, branch for branch. -/
def check_collision_two_part (f : Finder) (a b : ParticleData) (dt : ℚ)
    (env : TwoPartEnv) (cell_vol : ℚ) : Except String (Option Act) :=
  if spectator_banned f a b then .ok none
  else if f.coll_crit = .Stochastic ∧ cell_vol < really_small then .ok none
  else if env.time_until_collision < 0 ∨ env.time_until_collision ≥ dt then .ok none
  else if f.coll_crit ≠ .Stochastic ∧
      criterion_distance_sqr f env ≥ env.max_transverse_distance_sqr then .ok none
  else if f.coll_crit = .Stochastic then
    let prob := two_part_prob f env dt cell_vol
    if prob > 1 then .error (two_part_prob_err prob)
    else if env.random_draw > prob then .ok none
    else .ok (some ⟨env.time_until_collision⟩)
  else
    if 0 < a.id_process ∧ a.id_process = b.id_process then .ok none
    else if criterion_distance_sqr f env ≥ scaled_xs f env * m_1_pi then .ok none
    else .ok (some ⟨env.time_until_collision⟩)

/-- `ScatterActionsFinder::check_collision_multi_part`, branch for branch.
The particle list is carried along but, as in the source, feeds only the
external `ScatterActionMulti` collaborator. -/
def check_collision_multi_part (f : Finder) (plist : List ParticleData) (dt : ℚ)
    (cell_vol : ℚ) (env : MultiEnv) : Except String (Option Act) :=
  if cell_vol < really_small then .ok none
  else if f.testparticles ≠ 1 then .error multi_testp_err
  else
    let t := dt * env.random_time
    if env.process_type_none then .ok none
    else if env.p_nm > 1 then .error (multi_prob_err env.p_nm)
    else if env.random_draw > env.p_nm then .ok none
    else .ok (some ⟨t⟩)

/-- C1: for every pair of particles with both ids below `N_tot`, on the same
beam side (both below `N_proj` or both at least `N_proj`), and neither
interaction-history flag set, `check_collision_two_part` returns no action,
under every collision criterion and for any kinematics. -/
theorem spectator_exclusion_no_action (f : Finder) (a b : ParticleData) (dt : ℚ)
    (env : TwoPartEnv) (cell_vol : ℚ)
    (ha : a.id < f.N_tot) (hb : b.id < f.N_tot)
    (hside : (a.id < f.N_proj ∧ b.id < f.N_proj) ∨ (f.N_proj ≤ a.id ∧ f.N_proj ≤ b.id))
    (hfa : f.nucleon_has_interacted a.id = false)
    (hfb : f.nucleon_has_interacted b.id = false) :
    check_collision_two_part f a b dt env cell_vol = .ok none := by
  have hban : spectator_banned f a b := by
    refine ⟨ha, hb, hside, ?_⟩
    simp [hfa, hfb]
  simp [check_collision_two_part, hban]

/-- Witness instantiating C1 at a concrete spectator pair. -/
theorem spectator_exclusion_no_action_witness :
    check_collision_two_part
      ⟨CollisionCriterion.Geometric, 1, 4, 2, fun _ => false⟩
      ⟨0, 0⟩ ⟨1, 0⟩ 1
      ⟨0, 0, 0, 1, 1, 1, 1, 1, 0⟩ 1 = .ok none :=
  spectator_exclusion_no_action _ _ _ _ _ _ (by decide) (by decide)
    (Or.inl (by decide)) rfl rfl

/-- Evaluation of `check_collision_two_part` once the spectator, cell-volume
and timing gates have been passed under the stochastic criterion. -/
lemma check_two_part_stochastic_eval (f : Finder) (a b : ParticleData) (dt : ℚ)
    (env : TwoPartEnv) (cell_vol : ℚ)
    (hcrit : f.coll_crit = .Stochastic)
    (hban : ¬ spectator_banned f a b)
    (hvol : ¬ cell_vol < really_small)
    (ht : ¬ (env.time_until_collision < 0 ∨ env.time_until_collision ≥ dt)) :
    check_collision_two_part f a b dt env cell_vol =
      if two_part_prob f env dt cell_vol > 1 then
        .error (two_part_prob_err (two_part_prob f env dt cell_vol))
      else if env.random_draw > two_part_prob f env dt cell_vol then .ok none
      else .ok (some ⟨env.time_until_collision⟩) := by
  unfold check_collision_two_part
  rw [if_neg hban, if_neg (fun h => hvol h.2), if_neg ht, if_neg (fun h => h.1 hcrit),
    if_pos hcrit]

/-- Evaluation of `check_collision_multi_part` once the cell-volume,
test-particle and final-state gates have been passed. -/
lemma check_multi_part_eval (f : Finder) (plist : List ParticleData) (dt : ℚ)
    (cell_vol : ℚ) (menv : MultiEnv)
    (hvol : ¬ cell_vol < really_small)
    (htp : f.testparticles = 1)
    (hproc : menv.process_type_none = false) :
    check_collision_multi_part f plist dt cell_vol menv =
      if menv.p_nm > 1 then .error (multi_prob_err menv.p_nm)
      else if menv.random_draw > menv.p_nm then .ok none
      else .ok (some ⟨dt * menv.random_time⟩) := by
  unfold check_collision_multi_part
  rw [if_neg hvol, if_neg (fun h => h htp)]
  simp only [hproc, Bool.false_eq_true, if_false]

/-- C2: whenever the computed acceptance probability exceeds 1,
`check_collision_two_part` under the stochastic criterion and
`check_collision_multi_part` abort with the fatal error message that
carries the probability value, instead of clamping; for a probability at
most 1 no error is raised and rejection, if any, is silent. -/
theorem prob_overflow_fatal (f : Finder) (a b : ParticleData) (dt : ℚ)
    (env : TwoPartEnv) (cell_vol : ℚ) (plist : List ParticleData) (menv : MultiEnv)
    (hcrit : f.coll_crit = .Stochastic)
    (hban : ¬ spectator_banned f a b)
    (hvol : ¬ cell_vol < really_small)
    (ht : ¬ (env.time_until_collision < 0 ∨ env.time_until_collision ≥ dt))
    (htp : f.testparticles = 1)
    (hproc : menv.process_type_none = false) :
    (two_part_prob f env dt cell_vol > 1 →
      check_collision_two_part f a b dt env cell_vol =
        .error (two_part_prob_err (two_part_prob f env dt cell_vol))) ∧
    (two_part_prob f env dt cell_vol ≤ 1 →
      check_collision_two_part f a b dt env cell_vol = .ok none ∨
      check_collision_two_part f a b dt env cell_vol =
        .ok (some ⟨env.time_until_collision⟩)) ∧
    (menv.p_nm > 1 →
      check_collision_multi_part f plist dt cell_vol menv =
        .error (multi_prob_err menv.p_nm)) ∧
    (menv.p_nm ≤ 1 →
      check_collision_multi_part f plist dt cell_vol menv = .ok none ∨
      check_collision_multi_part f plist dt cell_vol menv =
        .ok (some ⟨dt * menv.random_time⟩)) := by
  rw [check_two_part_stochastic_eval f a b dt env cell_vol hcrit hban hvol ht,
    check_multi_part_eval f plist dt cell_vol menv hvol htp hproc]
  refine ⟨fun hp => if_pos hp, fun hp => ?_, fun hp => if_pos hp, fun hp => ?_⟩
  · rw [if_neg (not_lt.mpr hp)]
    by_cases hd : env.random_draw > two_part_prob f env dt cell_vol
    · exact Or.inl (if_pos hd)
    · exact Or.inr (if_neg hd)
  · rw [if_neg (not_lt.mpr hp)]
    by_cases hd : menv.random_draw > menv.p_nm
    · exact Or.inl (if_pos hd)
    · exact Or.inr (if_neg hd)

/-- Witness instantiating C2 at a concrete stochastic configuration whose
computed probability exceeds 1. -/
theorem prob_overflow_fatal_witness :
    check_collision_two_part
        ⟨CollisionCriterion.Stochastic, 1, 0, 0, fun _ => false⟩
        ⟨0, 0⟩ ⟨1, 0⟩ 1
        ⟨0, 0, 0, 100, 1, 1, 1, 1, 0⟩ 1 =
      .error (two_part_prob_err 10) ∧
    check_collision_multi_part
        ⟨CollisionCriterion.Stochastic, 1, 0, 0, fun _ => false⟩
        [] 1 1 ⟨0, false, 2, 0⟩ =
      .error (multi_prob_err 2) := by
  have h := prob_overflow_fatal
    ⟨CollisionCriterion.Stochastic, 1, 0, 0, fun _ => false⟩
    ⟨0, 0⟩ ⟨1, 0⟩ 1 ⟨0, 0, 0, 100, 1, 1, 1, 1, 0⟩ 1 [] ⟨0, false, 2, 0⟩
    rfl (by simp [spectator_banned]) (by norm_num [really_small])
    (by norm_num) rfl rfl
  have hval : two_part_prob ⟨CollisionCriterion.Stochastic, 1, 0, 0, fun _ => false⟩
      ⟨0, 0, 0, 100, 1, 1, 1, 1, 0⟩ 1 1 = 10 := by
    norm_num [two_part_prob, scaled_xs, fm2_mb]
  refine ⟨?_, h.2.2.1 (by norm_num)⟩
  have h1 := h.1 (by rw [hval]; norm_num)
  rw [hval] at h1
  exact h1

/-- C3: every action returned by `check_collision_two_part` or
`check_collision_multi_part` has a time-until-collision `t` with
`0 ≤ t < dt`, given the `random::uniform(0., 1.)` contract for the
multi-body time draw and a positive timestep. -/
theorem time_until_collision_in_timestep (f : Finder) (a b : ParticleData) (dt : ℚ)
    (env : TwoPartEnv) (cell_vol : ℚ) (plist : List ParticleData) (menv : MultiEnv)
    (hdt : 0 < dt) (hu0 : 0 ≤ menv.random_time) (hu1 : menv.random_time < 1) :
    (∀ act : Act, check_collision_two_part f a b dt env cell_vol = .ok (some act) →
      0 ≤ act.time ∧ act.time < dt) ∧
    (∀ act : Act, check_collision_multi_part f plist dt cell_vol menv = .ok (some act) →
      0 ≤ act.time ∧ act.time < dt) := by
  constructor
  · intro act hact
    simp only [check_collision_two_part] at hact
    split at hact
    · simp at hact
    · split at hact
      · simp at hact
      · split at hact
        · simp at hact
        · rename_i ht
          push_neg at ht
          split at hact
          · simp at hact
          · split at hact
            · split at hact
              · simp at hact
              · split at hact
                · simp at hact
                · simp only [Except.ok.injEq, Option.some.injEq] at hact
                  rw [← hact]
                  exact ht
            · split at hact
              · simp at hact
              · split at hact
                · simp at hact
                · simp only [Except.ok.injEq, Option.some.injEq] at hact
                  rw [← hact]
                  exact ht
  · intro act hact
    simp only [check_collision_multi_part] at hact
    split at hact
    · simp at hact
    · split at hact
      · simp at hact
      · split at hact
        · simp at hact
        · split at hact
          · simp at hact
          · split at hact
            · simp at hact
            · simp only [Except.ok.injEq, Option.some.injEq] at hact
              rw [← hact]
              refine ⟨mul_nonneg hdt.le hu0, ?_⟩
              calc dt * menv.random_time < dt * 1 := mul_lt_mul_of_pos_left hu1 hdt
                _ = dt := mul_one dt

/-- Witness instantiating C3 at a concrete configuration. -/
theorem time_until_collision_in_timestep_witness :
    (∀ act : Act, check_collision_two_part
        ⟨CollisionCriterion.Geometric, 1, 0, 0, fun _ => false⟩
        ⟨0, 0⟩ ⟨1, 0⟩ 2 ⟨1, 0, 0, 100, 1, 1, 1, 1, 0⟩ 1 = .ok (some act) →
      0 ≤ act.time ∧ act.time < 2) ∧
    (∀ act : Act, check_collision_multi_part
        ⟨CollisionCriterion.Geometric, 1, 0, 0, fun _ => false⟩
        [] 2 1 ⟨1 / 2, false, 1, 0⟩ = .ok (some act) →
      0 ≤ act.time ∧ act.time < 2) :=
  time_until_collision_in_timestep
    ⟨CollisionCriterion.Geometric, 1, 0, 0, fun _ => false⟩
    ⟨0, 0⟩ ⟨1, 0⟩ 2 ⟨1, 0, 0, 100, 1, 1, 1, 1, 0⟩ 1 [] ⟨1 / 2, false, 1, 0⟩
    (by norm_num) (by norm_num) (by norm_num)

/-- C4 counterexample: under the geometric criterion
`check_collision_two_part` ignores the cell volume, so with a cell volume
of 0 (below `really_small`) it can still return an action. -/
theorem cell_vol_small_two_part_accepts_cx :
    (0 : ℚ) < really_small ∧
    check_collision_two_part
        ⟨CollisionCriterion.Geometric, 1, 0, 0, fun _ => false⟩
        ⟨0, 0⟩ ⟨1, 0⟩ 1 ⟨0, 0, 0, 100, 1, 1, 1, 1, 0⟩ 0 =
      .ok (some ⟨0⟩) := by
  refine ⟨by norm_num [really_small], ?_⟩
  unfold check_collision_two_part
  rw [if_neg (by simp [spectator_banned]), if_neg (fun h => absurd h.1 (by decide)),
    if_neg (by norm_num), if_neg (fun h => absurd h.2 (by norm_num [criterion_distance_sqr])),
    if_neg (by decide), if_neg (by decide),
    if_neg (by norm_num [criterion_distance_sqr, scaled_xs, fm2_mb, m_1_pi])]

/-- C4 amended: with a cell volume below `really_small`,
`check_collision_two_part` rejects without error under the stochastic
criterion, and `check_collision_multi_part` rejects without error under
every criterion, for any particles and any kinematics. -/
theorem cell_vol_small_rejects (f g : Finder) (a b : ParticleData) (dt : ℚ)
    (env : TwoPartEnv) (plist : List ParticleData) (menv : MultiEnv) (cell_vol : ℚ)
    (hcrit : f.coll_crit = .Stochastic) (hvol : cell_vol < really_small) :
    check_collision_two_part f a b dt env cell_vol = .ok none ∧
    check_collision_multi_part g plist dt cell_vol menv = .ok none := by
  constructor
  · unfold check_collision_two_part
    by_cases hban : spectator_banned f a b
    · rw [if_pos hban]
    · rw [if_neg hban, if_pos ⟨hcrit, hvol⟩]
  · unfold check_collision_multi_part
    rw [if_pos hvol]

/-- Witness instantiating the amended C4 at a concrete configuration. -/
theorem cell_vol_small_rejects_witness :
    check_collision_two_part
        ⟨CollisionCriterion.Stochastic, 1, 0, 0, fun _ => false⟩
        ⟨0, 0⟩ ⟨1, 0⟩ 1 ⟨0, 0, 0, 100, 1, 1, 1, 1, 0⟩ 0 = .ok none ∧
    check_collision_multi_part
        ⟨CollisionCriterion.Geometric, 1, 0, 0, fun _ => false⟩
        [] 1 0 ⟨0, false, 0, 0⟩ = .ok none :=
  cell_vol_small_rejects
    ⟨CollisionCriterion.Stochastic, 1, 0, 0, fun _ => false⟩
    ⟨CollisionCriterion.Geometric, 1, 0, 0, fun _ => false⟩
    ⟨0, 0⟩ ⟨1, 0⟩ 1 ⟨0, 0, 0, 100, 1, 1, 1, 1, 0⟩ [] ⟨0, false, 0, 0⟩ 0
    rfl (by norm_num [really_small])

/-- C5 counterexample: with a test-particle number of 2 but a cell volume
below `really_small`, `check_collision_multi_part` returns no action and
raises no error — the cell-volume gate precedes the test-particle check. -/
theorem multi_testp_no_error_cx :
    check_collision_multi_part
        ⟨CollisionCriterion.Stochastic, 2, 0, 0, fun _ => false⟩
        [] 1 0 ⟨0, false, 0, 0⟩ = .ok none ∧
    (⟨CollisionCriterion.Stochastic, 2, 0, 0, fun _ => false⟩ : Finder).testparticles ≠ 1 ∧
    (0 : ℚ) < really_small := by
  refine ⟨?_, by decide, by norm_num [really_small]⟩
  norm_num [check_collision_multi_part, really_small]

/-- C5 amended: for every call to `check_collision_multi_part` with a cell
volume at least `really_small` and a test-particle number other than 1, a
fatal error is raised, regardless of the other inputs. -/
theorem multi_testp_fatal (f : Finder) (plist : List ParticleData) (dt : ℚ)
    (cell_vol : ℚ) (menv : MultiEnv)
    (hvol : ¬ cell_vol < really_small) (htp : f.testparticles ≠ 1) :
    check_collision_multi_part f plist dt cell_vol menv = .error multi_testp_err := by
  unfold check_collision_multi_part
  rw [if_neg hvol, if_pos htp]

/-- Witness instantiating the amended C5 at a concrete configuration. -/
theorem multi_testp_fatal_witness :
    check_collision_multi_part
        ⟨CollisionCriterion.Stochastic, 2, 0, 0, fun _ => false⟩
        [] 1 1 ⟨0, false, 0, 0⟩ = .error multi_testp_err :=
  multi_testp_fatal
    ⟨CollisionCriterion.Stochastic, 2, 0, 0, fun _ => false⟩
    [] 1 1 ⟨0, false, 0, 0⟩ (by norm_num [really_small]) (by decide)

/-- C6: under the geometric or covariant criterion, for a pair passing the
spectator, timing and distance-pre-filter checks, `check_collision_two_part`
returns no action if the particles carry equal nonzero last-process
identifiers; otherwise it returns an action if and only if the transverse
distance squared is strictly below the scaled total cross section times
`M_1_PI`. -/
theorem geometric_accept_iff_distance (f : Finder) (a b : ParticleData) (dt : ℚ)
    (env : TwoPartEnv) (cell_vol : ℚ)
    (hcrit : f.coll_crit = .Geometric ∨ f.coll_crit = .Covariant)
    (hban : ¬ spectator_banned f a b)
    (ht : ¬ (env.time_until_collision < 0 ∨ env.time_until_collision ≥ dt))
    (hdist : criterion_distance_sqr f env < env.max_transverse_distance_sqr) :
    (0 < a.id_process ∧ a.id_process = b.id_process →
      check_collision_two_part f a b dt env cell_vol = .ok none) ∧
    (¬ (0 < a.id_process ∧ a.id_process = b.id_process) →
      (check_collision_two_part f a b dt env cell_vol =
          .ok (some ⟨env.time_until_collision⟩) ↔
        criterion_distance_sqr f env < scaled_xs f env * m_1_pi)) := by
  have hcrit' : f.coll_crit ≠ .Stochastic := by
    rcases hcrit with h | h <;> rw [h] <;> intro hc <;> cases hc
  have heval : check_collision_two_part f a b dt env cell_vol =
      if 0 < a.id_process ∧ a.id_process = b.id_process then .ok none
      else if criterion_distance_sqr f env ≥ scaled_xs f env * m_1_pi then .ok none
      else .ok (some ⟨env.time_until_collision⟩) := by
    unfold check_collision_two_part
    rw [if_neg hban, if_neg (fun h => hcrit' h.1), if_neg ht,
      if_neg (fun h => not_le.mpr hdist h.2), if_neg hcrit']
  rw [heval]
  constructor
  · intro hid
    rw [if_pos hid]
  · intro hid
    rw [if_neg hid]
    by_cases hd : criterion_distance_sqr f env ≥ scaled_xs f env * m_1_pi
    · rw [if_pos hd]
      exact iff_of_false (by simp) (not_lt.mpr hd)
    · rw [if_neg hd]
      exact iff_of_true rfl (lt_of_not_ge hd)

/-- Witness instantiating C6 at a concrete geometric configuration. -/
theorem geometric_accept_iff_distance_witness :
    ((0 : ℕ) < (⟨0, 0⟩ : ParticleData).id_process ∧
        (⟨0, 0⟩ : ParticleData).id_process = (⟨1, 0⟩ : ParticleData).id_process →
      check_collision_two_part
          ⟨CollisionCriterion.Geometric, 1, 0, 0, fun _ => false⟩
          ⟨0, 0⟩ ⟨1, 0⟩ 1 ⟨0, 0, 0, 100, 1, 1, 1, 1, 0⟩ 1 = .ok none) ∧
    (¬ ((0 : ℕ) < (⟨0, 0⟩ : ParticleData).id_process ∧
        (⟨0, 0⟩ : ParticleData).id_process = (⟨1, 0⟩ : ParticleData).id_process) →
      (check_collision_two_part
          ⟨CollisionCriterion.Geometric, 1, 0, 0, fun _ => false⟩
          ⟨0, 0⟩ ⟨1, 0⟩ 1 ⟨0, 0, 0, 100, 1, 1, 1, 1, 0⟩ 1 =
        .ok (some ⟨(⟨0, 0, 0, 100, 1, 1, 1, 1, 0⟩ : TwoPartEnv).time_until_collision⟩) ↔
        criterion_distance_sqr
            ⟨CollisionCriterion.Geometric, 1, 0, 0, fun _ => false⟩
            ⟨0, 0, 0, 100, 1, 1, 1, 1, 0⟩ <
          scaled_xs ⟨CollisionCriterion.Geometric, 1, 0, 0, fun _ => false⟩
            ⟨0, 0, 0, 100, 1, 1, 1, 1, 0⟩ * m_1_pi)) :=
  geometric_accept_iff_distance
    ⟨CollisionCriterion.Geometric, 1, 0, 0, fun _ => false⟩
    ⟨0, 0⟩ ⟨1, 0⟩ 1 ⟨0, 0, 0, 100, 1, 1, 1, 1, 0⟩ 1
    (Or.inl rfl) (by simp [spectator_banned]) (by norm_num)
    (by norm_num [criterion_distance_sqr])

/-! ### The decay-tree builder (`namespace decaytree` in the source)

`ParticleTypePtr` values are pointers into the global particle-type
registry; they are modelled as indices `ℕ` resolved through an explicit
`Registry`. The registry supplies exactly what `add_decays` reads:
`name()`, `mass()`, `is_stable()` and `decay_modes().decay_mode_list()`
(each branch: `weight()` and `particle_types()`). -/

/-- The particle-type data read through a `ParticleTypePtr`. -/
structure ParticleTypeInfo where
  name : String
  mass : ℚ
  is_stable : Bool

/-- A decay branch: branching weight and outgoing particle types. -/
structure DecayBranch where
  weight : ℚ
  particle_types : List ℕ

/-- The particle-type/decay-mode registry collaborator. -/
structure Registry where
  info : ℕ → ParticleTypeInfo
  decay_modes : ℕ → List DecayBranch

/-- `decaytree::Node`: name, weight, initial-state types, final-state
types, the state after this action, and child nodes. -/
inductive Node where
  | mk (name : String) (weight : ℚ)
      (initial_particles final_particles state : List ℕ)
      (children : List Node)

def Node.name : Node → String
  | .mk n _ _ _ _ _ => n

def Node.weight : Node → ℚ
  | .mk _ w _ _ _ _ => w

def Node.initial_particles : Node → List ℕ
  | .mk _ _ i _ _ _ => i

def Node.final_particles : Node → List ℕ
  | .mk _ _ _ fp _ _ => fp

def Node.state : Node → List ℕ
  | .mk _ _ _ _ s _ => s

def Node.children : Node → List Node
  | .mk _ _ _ _ _ c => c

/-- `node.weight_ = 0` as a functional update. -/
def Node.set_weight : Node → ℚ → Node
  | .mk n _ i fp s c, w => .mk n w i fp s c

/-- `children_.emplace_back(...)` as a functional update. -/
def Node.push_child : Node → Node → Node
  | .mk n w i fp s c, child => .mk n w i fp s (c ++ [child])

/-- Sorting a state by particle-type name, the canonicalization performed
at the end of `Node::add_action`. -/
def sort_state (reg : Registry) (l : List ℕ) : List ℕ :=
  List.insertionSort (fun p q => (reg.info p).name ≤ (reg.info q).name) l

/-- The state of a child node in `Node::add_action`: copy the parent
state, erase the first occurrence of each initial particle, append the
final particles, and sort by name. -/
def child_state (reg : Registry) (parent_state initial final : List ℕ) : List ℕ :=
  sort_state reg ((initial.foldl (fun s p => s.erase p) parent_state) ++ final)

/-- `Node::add_action`: build the child node with its canonicalized state,
append it to the children, and return (updated parent, child). -/
def Node.add_action (node : Node) (reg : Registry) (name : String) (weight : ℚ)
    (initial final : List ℕ) : Node × Node :=
  let new_node : Node := .mk name weight initial final
    (child_state reg node.state initial final) []
  (node.push_child new_node, new_node)

/-- `make_decay_name`: `"[" + res_name + "->" + product names + "]"`. -/
def make_decay_name (reg : Registry) (res_name : String) (d : DecayBranch) : String :=
  "[" ++ res_name ++ "->" ++ String.join (d.particle_types.map (fun p => (reg.info p).name)) ++ "]"

/-- Sum of the pole masses of a list of particle types. -/
def sum_masses (reg : Registry) (l : List ℕ) : ℚ :=
  (l.map (fun p => (reg.info p).mass)).sum

/-- The kinematically allowed decay branches of `p` at energy
`sqrts_decay`: the source skips a branch iff its summed final-state mass
exceeds `sqrts_decay`. -/
def allowed_decays (reg : Registry) (sqrts_decay : ℚ) (p : ℕ) : List DecayBranch :=
  (reg.decay_modes p).filter (fun d => ! decide (sum_masses reg d.particle_types > sqrts_decay))

/-- A particle type that stops `add_decays`: unstable with no
kinematically allowed decay branch (`can_decay` stays false). -/
def blocked (reg : Registry) (smm : ℚ) (p : ℕ) : Bool :=
  !(reg.info p).is_stable && (allowed_decays reg (smm + (reg.info p).mass) p).isEmpty

/-- The redundant-ordering normalization `1 / n_unstable` (or 1). -/
def decay_norm (reg : Registry) (state : List ℕ) : ℚ :=
  let n := (state.filter (fun p => !(reg.info p).is_stable)).length
  if n ≠ 0 then 1 / (n : ℚ) else 1

/-- The loop of `add_decays` over the node's state. For each unstable
particle type: if no decay branch is kinematically allowed, set the node's
weight to zero and return; otherwise add a child per allowed branch
(through `Node::add_action`) and expand it recursively via `recurse`. -/
def add_decays_go (recurse : Node → ℚ → Node) (reg : Registry) (norm smm : ℚ) :
    Node → List ℕ → Node
  | node, [] => node
  | node, p :: rest =>
    if (reg.info p).is_stable then add_decays_go recurse reg norm smm node rest
    else
      let sqrts_decay := smm + (reg.info p).mass
      let allowed := allowed_decays reg sqrts_decay p
      if allowed.isEmpty then node.set_weight 0
      else
        let node' := allowed.foldl
          (fun n d =>
            n.push_child (recurse
              ((n.add_action reg (make_decay_name reg (reg.info p).name d)
                (norm * d.weight) [p] d.particle_types).2)
              sqrts_decay))
          node
        add_decays_go recurse reg norm smm node' rest

/-- `decaytree::add_decays`. The C++ recursion terminates physically
(decays strictly lose energy); the embedding makes this explicit with a
fuel parameter, `fuel = 0` performing no expansion. -/
def add_decays (reg : Registry) : ℕ → Node → ℚ → Node
  | 0, node, _ => node
  | fuel + 1, node, sqrts =>
    add_decays_go (add_decays reg fuel) reg (decay_norm reg node.state)
      (sqrts - sum_masses reg node.state) node node.state

lemma Node.set_weight_weight (n : Node) (w : ℚ) : (n.set_weight w).weight = w := by
  cases n
  rfl

lemma Node.set_weight_children (n : Node) (w : ℚ) :
    (n.set_weight w).children = n.children := by
  cases n
  rfl

lemma Node.set_weight_state (n : Node) (w : ℚ) : (n.set_weight w).state = n.state := by
  cases n
  rfl

lemma Node.set_weight_initial (n : Node) (w : ℚ) :
    (n.set_weight w).initial_particles = n.initial_particles := by
  cases n
  rfl

lemma Node.set_weight_final (n : Node) (w : ℚ) :
    (n.set_weight w).final_particles = n.final_particles := by
  cases n
  rfl

lemma Node.push_child_children (n c : Node) :
    (n.push_child c).children = n.children ++ [c] := by
  cases n
  rfl

lemma Node.push_child_state (n c : Node) : (n.push_child c).state = n.state := by
  cases n
  rfl

lemma Node.push_child_initial (n c : Node) :
    (n.push_child c).initial_particles = n.initial_particles := by
  cases n
  rfl

lemma Node.push_child_final (n c : Node) :
    (n.push_child c).final_particles = n.final_particles := by
  cases n
  rfl

lemma Node.push_child_weight (n c : Node) : (n.push_child c).weight = n.weight := by
  cases n
  rfl

/-- The child-appending fold of `add_decays_go` does not change the
accumulator's own name, weight, initial/final particles or state. -/
lemma foldl_push_fields (child : Node → DecayBranch → Node) :
    ∀ (ds : List DecayBranch) (n : Node),
      (ds.foldl (fun n d => n.push_child (child n d)) n).state = n.state ∧
      (ds.foldl (fun n d => n.push_child (child n d)) n).initial_particles =
        n.initial_particles ∧
      (ds.foldl (fun n d => n.push_child (child n d)) n).final_particles =
        n.final_particles ∧
      (ds.foldl (fun n d => n.push_child (child n d)) n).weight = n.weight
  | [], n => ⟨rfl, rfl, rfl, rfl⟩
  | d :: ds, n => by
    have ih := foldl_push_fields child ds (n.push_child (child n d))
    simp only [List.foldl_cons]
    exact ⟨ih.1.trans (n.push_child_state _),
      ih.2.1.trans (n.push_child_initial _),
      ih.2.2.1.trans (n.push_child_final _),
      ih.2.2.2.trans (n.push_child_weight _)⟩

/-- `add_decays_go` never changes the node's own initial/final particles
or state (only its weight and children). -/
lemma add_decays_go_fields (recurse : Node → ℚ → Node) (reg : Registry) (norm smm : ℚ) :
    ∀ (rest : List ℕ) (node : Node),
      (add_decays_go recurse reg norm smm node rest).state = node.state ∧
      (add_decays_go recurse reg norm smm node rest).initial_particles =
        node.initial_particles ∧
      (add_decays_go recurse reg norm smm node rest).final_particles =
        node.final_particles
  | [], node => ⟨rfl, rfl, rfl⟩
  | p :: rest, node => by
    rw [add_decays_go]
    by_cases hs : (reg.info p).is_stable
    · rw [if_pos hs]
      exact add_decays_go_fields recurse reg norm smm rest node
    · rw [if_neg hs]
      by_cases he : (allowed_decays reg (smm + (reg.info p).mass) p).isEmpty
      · simp only [he, if_true]
        exact ⟨node.set_weight_state 0, node.set_weight_initial 0,
          node.set_weight_final 0⟩
      · simp only [he, if_false]
        have hfold := foldl_push_fields
          (fun n d => recurse
            ((n.add_action reg (make_decay_name reg (reg.info p).name d)
              (norm * d.weight) [p] d.particle_types).2)
            (smm + (reg.info p).mass))
          (allowed_decays reg (smm + (reg.info p).mass) p) node
        have ih := add_decays_go_fields recurse reg norm smm rest
          ((allowed_decays reg (smm + (reg.info p).mass) p).foldl
            (fun n d => n.push_child (recurse
              ((n.add_action reg (make_decay_name reg (reg.info p).name d)
                (norm * d.weight) [p] d.particle_types).2)
              (smm + (reg.info p).mass))) node)
        exact ⟨ih.1.trans hfold.1, ih.2.1.trans hfold.2.1, ih.2.2.trans hfold.2.2.1⟩

/-- `add_decays` never changes the node's own initial/final particles or
state. -/
lemma add_decays_fields (reg : Registry) :
    ∀ (fuel : ℕ) (node : Node) (sqrts : ℚ),
      (add_decays reg fuel node sqrts).state = node.state ∧
      (add_decays reg fuel node sqrts).initial_particles = node.initial_particles ∧
      (add_decays reg fuel node sqrts).final_particles = node.final_particles
  | 0, node, sqrts => ⟨rfl, rfl, rfl⟩
  | fuel + 1, node, sqrts => by
    rw [add_decays]
    exact add_decays_go_fields (add_decays reg fuel) reg _ _ node.state node

/-- The loop of `add_decays` stops at the first blocked particle type:
if some type in `rest` is unstable with no allowed decay, the result is
the processing of the prefix before the first such type, with the weight
set to zero. -/
lemma add_decays_go_blocked (recurse : Node → ℚ → Node) (reg : Registry) (norm smm : ℚ) :
    ∀ (rest : List ℕ) (node : Node), (∃ p ∈ rest, blocked reg smm p = true) →
      add_decays_go recurse reg norm smm node rest =
        (add_decays_go recurse reg norm smm node
          (rest.takeWhile (fun p => !blocked reg smm p))).set_weight 0
  | [], node, h => by
    obtain ⟨p, hp, _⟩ := h
    cases hp
  | p :: rest, node, h => by
    by_cases hs : (reg.info p).is_stable
    · have hbp : blocked reg smm p = false := by
        simp [blocked, hs]
      have hmem : ∃ q ∈ rest, blocked reg smm q = true := by
        obtain ⟨q, hq, hbq⟩ := h
        rcases List.mem_cons.mp hq with rfl | hq'
        · rw [hbp] at hbq
          cases hbq
        · exact ⟨q, hq', hbq⟩
      rw [List.takeWhile_cons_of_pos (by simp [hbp])]
      rw [add_decays_go, if_pos hs, add_decays_go, if_pos hs]
      exact add_decays_go_blocked recurse reg norm smm rest node hmem
    · by_cases he : (allowed_decays reg (smm + (reg.info p).mass) p).isEmpty
      · have hbp : blocked reg smm p = true := by
          simp [blocked, hs, he]
        rw [List.takeWhile_cons_of_neg (by simp [hbp])]
        rw [add_decays_go]
        rw [add_decays_go, if_neg hs]
        simp only [he, if_true]
      · have hbp : blocked reg smm p = false := by
          simp [blocked, hs, he]
        have hmem : ∃ q ∈ rest, blocked reg smm q = true := by
          obtain ⟨q, hq, hbq⟩ := h
          rcases List.mem_cons.mp hq with rfl | hq'
          · rw [hbp] at hbq
            cases hbq
          · exact ⟨q, hq', hbq⟩
        rw [List.takeWhile_cons_of_pos (by simp [hbp])]
        rw [add_decays_go, if_neg hs, add_decays_go, if_neg hs]
        simp only [he, if_false]
        exact add_decays_go_blocked recurse reg norm smm rest _ hmem

/-- C7: in `add_decays`, for every node whose state contains an unstable
particle type none of whose decay modes has a summed final-state pole mass
at most the energy remaining after subtracting the pole masses of all
other particles in the state, the node's weight is set to zero and no
further children are added below that node — the children of the result
are exactly those produced from the prefix of the state before the first
such blocked type. -/
theorem add_decays_blocked_zero_weight (reg : Registry) (fuel : ℕ) (node : Node)
    (sqrts : ℚ) (p : ℕ) (hp : p ∈ node.state)
    (hunstable : (reg.info p).is_stable = false)
    (hnodecay : ∀ d ∈ reg.decay_modes p,
      sum_masses reg d.particle_types >
        sqrts - sum_masses reg node.state + (reg.info p).mass) :
    (add_decays reg (fuel + 1) node sqrts).weight = 0 ∧
    (add_decays reg (fuel + 1) node sqrts).children =
      (add_decays_go (add_decays reg fuel) reg (decay_norm reg node.state)
        (sqrts - sum_masses reg node.state) node
        (node.state.takeWhile
          (fun q => !blocked reg (sqrts - sum_masses reg node.state) q))).children := by
  have hb : blocked reg (sqrts - sum_masses reg node.state) p = true := by
    unfold blocked
    rw [hunstable]
    simp only [Bool.not_false, Bool.true_and]
    rw [List.isEmpty_iff]
    apply List.filter_eq_nil_iff.mpr
    intro d hd
    simp [hnodecay d hd]
  have hstop := add_decays_go_blocked (add_decays reg fuel) reg
    (decay_norm reg node.state) (sqrts - sum_masses reg node.state)
    node.state node ⟨p, hp, hb⟩
  rw [add_decays, hstop]
  exact ⟨Node.set_weight_weight _ _, Node.set_weight_children _ _⟩

/-- A two-type registry for concrete evaluation: type 0 is an unstable
resonance of mass 1 whose only decay branch produces type 1 of mass 10. -/
def reg_w : Registry :=
  ⟨fun n => if n = 0 then ⟨"R", 1, false⟩ else ⟨"a", 10, true⟩,
   fun n => if n = 0 then [⟨1, [1]⟩] else []⟩

/-- Witness instantiating C7: at energy 1 the only decay of type 0 is
kinematically impossible, so the root's weight is zeroed. -/
theorem add_decays_blocked_zero_weight_witness :
    (add_decays reg_w 1 (Node.mk "root" 5 [] [] [0] []) 1).weight = 0 ∧
    (add_decays reg_w 1 (Node.mk "root" 5 [] [] [0] []) 1).children =
      (add_decays_go (add_decays reg_w 0) reg_w
        (decay_norm reg_w (Node.mk "root" 5 [] [] [0] []).state)
        (1 - sum_masses reg_w (Node.mk "root" 5 [] [] [0] []).state)
        (Node.mk "root" 5 [] [] [0] [])
        ((Node.mk "root" 5 [] [] [0] []).state.takeWhile
          (fun q => !blocked reg_w
            (1 - sum_masses reg_w (Node.mk "root" 5 [] [] [0] []).state) q))).children :=
  add_decays_blocked_zero_weight reg_w 0 (Node.mk "root" 5 [] [] [0] []) 1 0
    (by simp [Node.state])
    rfl
    (by
      intro d hd
      simp only [reg_w, List.mem_singleton, if_pos] at hd
      subst hd
      norm_num [sum_masses, reg_w, Node.state])

/-- C8 invariant: every node of the tree satisfies, for each of its
children, the `Node::add_action` relation — the child's state is the
parent's state minus the child's initial particles plus its final
particles, sorted by type name. -/
inductive StateInvariant (reg : Registry) : Node → Prop where
  | mk : ∀ (name : String) (weight : ℚ) (initial final state : List ℕ)
      (children : List Node),
      (∀ c ∈ children,
        c.state = child_state reg state c.initial_particles c.final_particles) →
      (∀ c ∈ children, StateInvariant reg c) →
      StateInvariant reg (.mk name weight initial final state children)

lemma StateInvariant.leaf (reg : Registry) (nm : String) (w : ℚ) (i fp s : List ℕ) :
    StateInvariant reg (Node.mk nm w i fp s []) := by
  constructor <;> intro c hc <;> cases hc

lemma StateInvariant.of_set_weight {reg : Registry} {n : Node}
    (h : StateInvariant reg n) (w : ℚ) : StateInvariant reg (n.set_weight w) := by
  cases n with
  | mk nm w0 i fp s ch =>
    cases h with
    | mk _ _ _ _ _ _ hch hinv =>
      exact StateInvariant.mk nm w i fp s ch hch hinv

lemma StateInvariant.of_push_child {reg : Registry} {n c : Node}
    (h : StateInvariant reg n)
    (hc : c.state = child_state reg n.state c.initial_particles c.final_particles)
    (hcInv : StateInvariant reg c) : StateInvariant reg (n.push_child c) := by
  cases n with
  | mk nm w i fp s ch =>
    cases h with
    | mk _ _ _ _ _ _ hch hinv =>
      apply StateInvariant.mk
      · intro c' hc'
        rcases List.mem_append.mp hc' with h1 | h1
        · exact hch c' h1
        · rw [List.mem_singleton] at h1
          subst h1
          exact hc
      · intro c' hc'
        rcases List.mem_append.mp hc' with h1 | h1
        · exact hinv c' h1
        · rw [List.mem_singleton] at h1
          subst h1
          exact hcInv

/-- The child-appending fold of `add_decays_go` preserves the invariant,
provided the recursive expansion preserves it and the fields it relies
on. -/
lemma foldl_push_invariant (reg : Registry) (recurse : Node → ℚ → Node)
    (hrecS : ∀ n s, (recurse n s).state = n.state)
    (hrecI : ∀ n s, (recurse n s).initial_particles = n.initial_particles)
    (hrecF : ∀ n s, (recurse n s).final_particles = n.final_particles)
    (hrecInv : ∀ n s, StateInvariant reg n → StateInvariant reg (recurse n s))
    (p : ℕ) (norm sq : ℚ) :
    ∀ (ds : List DecayBranch) (n : Node), StateInvariant reg n →
      StateInvariant reg (ds.foldl
        (fun n d => n.push_child (recurse
          ((n.add_action reg (make_decay_name reg (reg.info p).name d)
            (norm * d.weight) [p] d.particle_types).2) sq)) n)
  | [], n, h => h
  | d :: ds, n, h => by
    simp only [List.foldl_cons]
    apply foldl_push_invariant reg recurse hrecS hrecI hrecF hrecInv p norm sq ds
    apply h.of_push_child
    · rw [hrecS, hrecI, hrecF]
      rfl
    · exact hrecInv _ sq (StateInvariant.leaf reg _ _ _ _ _)

/-- `add_decays_go` preserves the invariant. -/
lemma add_decays_go_invariant (reg : Registry) (recurse : Node → ℚ → Node)
    (hrecS : ∀ n s, (recurse n s).state = n.state)
    (hrecI : ∀ n s, (recurse n s).initial_particles = n.initial_particles)
    (hrecF : ∀ n s, (recurse n s).final_particles = n.final_particles)
    (hrecInv : ∀ n s, StateInvariant reg n → StateInvariant reg (recurse n s))
    (norm smm : ℚ) :
    ∀ (rest : List ℕ) (node : Node), StateInvariant reg node →
      StateInvariant reg (add_decays_go recurse reg norm smm node rest)
  | [], node, h => h
  | p :: rest, node, h => by
    rw [add_decays_go]
    by_cases hs : (reg.info p).is_stable
    · rw [if_pos hs]
      exact add_decays_go_invariant reg recurse hrecS hrecI hrecF hrecInv
        norm smm rest node h
    · rw [if_neg hs]
      by_cases he : (allowed_decays reg (smm + (reg.info p).mass) p).isEmpty
      · simp only [he, if_true]
        exact h.of_set_weight 0
      · simp only [he, if_false]
        exact add_decays_go_invariant reg recurse hrecS hrecI hrecF hrecInv
          norm smm rest _
          (foldl_push_invariant reg recurse hrecS hrecI hrecF hrecInv p norm
            (smm + (reg.info p).mass) _ node h)

/-- C8: every child node created by `Node::add_action` carries as state the
parent's state minus its initial particles plus its final particles,
sorted by type name; consequently every non-root node of a tree built by
`add_decays` through `add_action` satisfies this relation to its parent:
the invariant holds of the whole output tree whenever it holds of the
input. -/
theorem add_action_state_invariant (reg : Registry) :
    ∀ (fuel : ℕ) (node : Node) (sqrts : ℚ), StateInvariant reg node →
      StateInvariant reg (add_decays reg fuel node sqrts)
  | 0, _, _, h => h
  | fuel + 1, node, sqrts, h => by
    rw [add_decays]
    exact add_decays_go_invariant reg (add_decays reg fuel)
      (fun n s => (add_decays_fields reg fuel n s).1)
      (fun n s => (add_decays_fields reg fuel n s).2.1)
      (fun n s => (add_decays_fields reg fuel n s).2.2)
      (fun n s hn => add_action_state_invariant reg fuel n s hn)
      (decay_norm reg node.state) (sqrts - sum_masses reg node.state)
      node.state node h

/-- Witness instantiating C8 on a concrete tree expansion. -/
theorem add_action_state_invariant_witness :
    StateInvariant reg_w (add_decays reg_w 2 (Node.mk "root" 5 [] [] [0] []) 100) :=
  add_action_state_invariant reg_w 2 (Node.mk "root" 5 [] [] [0] []) 100
    (StateInvariant.leaf reg_w "root" 5 [] [] [0])

/-! ### The diagnostic aggregator -/

/-- `FinalStateCrossSection`: name, exclusive cross section, total mass. -/
structure FinalStateCrossSection where
  name : String
  cross_section : ℚ
  mass : ℚ
deriving DecidableEq

/-- The comparator of `deduplicate`: order by final-state name. The C++
`std::sort` uses the strict form `a.name_ < b.name_` and leaves the order
of equal names unspecified; the embedding fixes it with a stable insertion
sort on the non-strict form, one of the permitted outcomes. -/
def fsxs_le (a b : FinalStateCrossSection) : Prop := a.name ≤ b.name

instance : DecidableRel fsxs_le := fun a b => inferInstanceAs (Decidable (a.name ≤ b.name))

instance : IsTotal FinalStateCrossSection fsxs_le := ⟨fun a b => le_total a.name b.name⟩

instance : IsTrans FinalStateCrossSection fsxs_le := ⟨fun _ _ _ h1 h2 => le_trans h1 h2⟩

/-- The merging scan of `deduplicate`: `std::adjacent_find` locates the
first adjacent pair with equal names, the first entry absorbs the second's
cross section, the second is erased, and the scan resumes at the merged
entry. -/
def dedup_scan : List FinalStateCrossSection → List FinalStateCrossSection
  | [] => []
  | [a] => [a]
  | a :: b :: rest =>
    if a.name = b.name then
      dedup_scan ({ a with cross_section := a.cross_section + b.cross_section } :: rest)
    else
      a :: dedup_scan (b :: rest)
termination_by l => l.length
decreasing_by all_goals simp

/-- `deduplicate`: sort the final-state cross sections by name, then merge
adjacent entries with equal names by summing their cross sections. -/
def deduplicate (l : List FinalStateCrossSection) : List FinalStateCrossSection :=
  dedup_scan (List.insertionSort fsxs_le l)

/-- The names surviving `dedup_scan` are a sublist of the input's names. -/
lemma dedup_scan_names_sublist :
    ∀ l : List FinalStateCrossSection,
      List.Sublist ((dedup_scan l).map FinalStateCrossSection.name)
        (l.map FinalStateCrossSection.name)
  | [] => by simp [dedup_scan]
  | [a] => by simp [dedup_scan]
  | a :: b :: rest => by
    rw [dedup_scan]
    split_ifs with h
    · refine (dedup_scan_names_sublist _).trans ?_
      simp only [List.map_cons]
      exact List.Sublist.cons₂ a.name (List.sublist_cons_self b.name _)
    · simp only [List.map_cons]
      exact List.Sublist.cons₂ a.name (dedup_scan_names_sublist (b :: rest))
termination_by l => l.length
decreasing_by all_goals simp

/-- On a name-sorted input, `dedup_scan` produces strictly increasing
names. -/
lemma dedup_scan_names_strict :
    ∀ l : List FinalStateCrossSection, List.Pairwise fsxs_le l →
      List.Pairwise (fun a b : FinalStateCrossSection => a.name < b.name) (dedup_scan l)
  | [], _ => by simp [dedup_scan]
  | [a], _ => by simp [dedup_scan]
  | a :: b :: rest, h => by
    rw [dedup_scan]
    rw [List.pairwise_cons] at h
    obtain ⟨ha, hb⟩ := h
    rw [List.pairwise_cons] at hb
    obtain ⟨hbrest, hrest⟩ := hb
    split_ifs with hn
    · refine dedup_scan_names_strict _ ?_
      rw [List.pairwise_cons]
      refine ⟨fun x hx => ?_, hrest⟩
      show fsxs_le a x  -- hmm the merged head keeps the name of a
      exact le_of_eq_of_le hn (hbrest x hx)
    · rw [List.pairwise_cons]
      refine ⟨fun x hx => ?_, dedup_scan_names_strict (b :: rest)
        (List.pairwise_cons.mpr ⟨hbrest, hrest⟩)⟩
      have hx' : x.name ∈ (dedup_scan (b :: rest)).map FinalStateCrossSection.name :=
        List.mem_map_of_mem _ hx
      have hx'' : x.name ∈ (b :: rest).map FinalStateCrossSection.name :=
        List.Sublist.mem hx' (dedup_scan_names_sublist (b :: rest))
      have hab : a.name < b.name := lt_of_le_of_ne (ha b (List.mem_cons_self b rest)) hn
      simp only [List.map_cons, List.mem_cons] at hx''
      rcases hx'' with h1 | h1
      · rw [h1]
        exact hab
      · obtain ⟨y, hy, hyname⟩ := List.mem_map.mp h1
        exact hab.trans_le (hyname ▸ hbrest y hy)
termination_by l => l.length
decreasing_by all_goals simp

/-- On strictly name-increasing input, `dedup_scan` is the identity. -/
lemma dedup_scan_eq_self :
    ∀ l : List FinalStateCrossSection,
      List.Pairwise (fun a b : FinalStateCrossSection => a.name < b.name) l →
      dedup_scan l = l
  | [], _ => by rw [dedup_scan]
  | [a], _ => by rw [dedup_scan]
  | a :: b :: rest, h => by
    rw [List.pairwise_cons] at h
    obtain ⟨ha, hb⟩ := h
    rw [dedup_scan, if_neg (ne_of_lt (ha b (List.mem_cons_self b rest)))]
    rw [dedup_scan_eq_self (b :: rest) hb]

/-- C9: `deduplicate` is idempotent — applying it twice to any list of
final-state cross sections yields the same list as applying it once; in
particular it leaves an already-deduplicated list unchanged. -/
theorem deduplicate_idempotent (l : List FinalStateCrossSection) :
    deduplicate (deduplicate l) = deduplicate l := by
  unfold deduplicate
  have hsorted : List.Pairwise fsxs_le (List.insertionSort fsxs_le l) :=
    List.sorted_insertionSort fsxs_le l
  have hlt := dedup_scan_names_strict _ hsorted
  have hle : List.Sorted fsxs_le (dedup_scan (List.insertionSort fsxs_le l)) :=
    hlt.imp (fun h => le_of_lt h)
  rw [List.Sorted.insertionSort_eq hle]
  exact dedup_scan_eq_self _ hlt

/-! ### `dump_cross_sections`: handling of the caller's `plab` vector -/

/-- `std::unique` + `erase` on a list: remove adjacent duplicate values,
keeping the first of each run. -/
def erase_adjacent_dup : List ℚ → List ℚ
  | [] => []
  | [a] => [a]
  | a :: b :: rest =>
    if a = b then erase_adjacent_dup (a :: rest) else a :: erase_adjacent_dup (b :: rest)
termination_by l => l.length
decreasing_by all_goals simp

/-- The `plab` preprocessing of `ScatterActionsFinder::dump_cross_sections`:
`n_momentum_points` starts at 200; a non-empty `plab` overrides it with the
length of `plab` as passed in, and `plab` itself is sorted and its
duplicates erased in place. Returns `(n_momentum_points, plab)`. -/
def dump_cross_sections_plab (plab : List ℚ) : ℕ × List ℚ :=
  if 0 < plab.length then
    (plab.length, erase_adjacent_dup (List.insertionSort (fun x y : ℚ => x ≤ y) plab))
  else
    (200, plab)

lemma erase_adjacent_dup_sublist :
    ∀ l : List ℚ, List.Sublist (erase_adjacent_dup l) l
  | [] => by simp [erase_adjacent_dup]
  | [a] => by simp [erase_adjacent_dup]
  | a :: b :: rest => by
    rw [erase_adjacent_dup]
    split_ifs with h
    · refine (erase_adjacent_dup_sublist (a :: rest)).trans ?_
      exact List.Sublist.cons₂ a (List.sublist_cons_self b rest)
    · exact List.Sublist.cons₂ a (erase_adjacent_dup_sublist (b :: rest))
termination_by l => l.length
decreasing_by all_goals simp

lemma erase_adjacent_dup_mem :
    ∀ (l : List ℚ) (x : ℚ), x ∈ erase_adjacent_dup l ↔ x ∈ l
  | [], x => by rw [erase_adjacent_dup]
  | [a], x => by rw [erase_adjacent_dup]
  | a :: b :: rest, x => by
    rw [erase_adjacent_dup]
    split_ifs with h
    · rw [erase_adjacent_dup_mem (a :: rest) x]
      subst h
      simp only [List.mem_cons]
      tauto
    · simp only [List.mem_cons, erase_adjacent_dup_mem (b :: rest) x]
termination_by l => l.length
decreasing_by all_goals simp

lemma erase_adjacent_dup_strict :
    ∀ l : List ℚ, List.Pairwise (fun x y : ℚ => x ≤ y) l →
      List.Pairwise (fun x y : ℚ => x < y) (erase_adjacent_dup l)
  | [], _ => by simp [erase_adjacent_dup]
  | [a], _ => by simp [erase_adjacent_dup]
  | a :: b :: rest, h => by
    rw [erase_adjacent_dup]
    rw [List.pairwise_cons] at h
    obtain ⟨ha, hb⟩ := h
    rw [List.pairwise_cons] at hb
    obtain ⟨hbrest, hrest⟩ := hb
    split_ifs with hn
    · refine erase_adjacent_dup_strict (a :: rest) ?_
      rw [List.pairwise_cons]
      exact ⟨fun x hx => hn ▸ hbrest x hx, hrest⟩
    · rw [List.pairwise_cons]
      refine ⟨fun x hx => ?_, erase_adjacent_dup_strict (b :: rest)
        (List.pairwise_cons.mpr ⟨hbrest, hrest⟩)⟩
      have hab : a < b := lt_of_le_of_ne (ha b (List.mem_cons_self b rest)) hn
      have hx' : x ∈ b :: rest :=
        List.Sublist.mem hx (erase_adjacent_dup_sublist (b :: rest))
      rcases List.mem_cons.mp hx' with h1 | h1
      · rw [h1]
        exact hab
      · exact hab.trans_le (hbrest x h1)
termination_by l => l.length
decreasing_by all_goals simp

/-- C10: for a non-empty `plab`, `dump_cross_sections` sorts the caller's
vector ascending and erases duplicate values in place, and the number of
momentum points scanned equals the length of `plab` before duplicate
removal. -/
theorem dump_cross_sections_plab_spec (plab : List ℚ) (h : plab ≠ []) :
    (dump_cross_sections_plab plab).1 = plab.length ∧
    List.Sorted (fun x y : ℚ => x ≤ y) (dump_cross_sections_plab plab).2 ∧
    (dump_cross_sections_plab plab).2.Nodup ∧
    ∀ x : ℚ, x ∈ (dump_cross_sections_plab plab).2 ↔ x ∈ plab := by
  have hlen : 0 < plab.length := List.length_pos.mpr h
  unfold dump_cross_sections_plab
  rw [if_pos hlen]
  have hsorted : List.Pairwise (fun x y : ℚ => x ≤ y)
      (List.insertionSort (fun x y : ℚ => x ≤ y) plab) :=
    List.sorted_insertionSort _ plab
  have hstrict := erase_adjacent_dup_strict _ hsorted
  refine ⟨rfl, hstrict.imp (fun h => le_of_lt h),
    List.Pairwise.imp (fun h => ne_of_lt h) hstrict, fun x => ?_⟩
  rw [erase_adjacent_dup_mem, List.mem_insertionSort]

/-- Witness instantiating C10 on a concrete momentum list with a
duplicate. -/
theorem dump_cross_sections_plab_spec_witness :
    (dump_cross_sections_plab [2, 1, 2]).1 = ([2, 1, 2] : List ℚ).length ∧
    List.Sorted (fun x y : ℚ => x ≤ y) (dump_cross_sections_plab [2, 1, 2]).2 ∧
    (dump_cross_sections_plab [2, 1, 2]).2.Nodup ∧
    ∀ x : ℚ, x ∈ (dump_cross_sections_plab [2, 1, 2]).2 ↔ x ∈ ([2, 1, 2] : List ℚ) :=
  dump_cross_sections_plab_spec [2, 1, 2] (by simp)

end Smash
